import Mathlib

/-!
Verification development for the NIRISS order-tracing module
(`S3_data_reduction/niriss.py`) and the parameter file reader
(`lib/readEPF.py`).  All numeric code is embedded shallowly over `ℚ`/`ℤ`
(numpy floats are modelled by exact rationals; the few external numeric
library routines — the polynomial least-squares solver, the cosmic-ray
cleaner — are taken as parameters or inputs, so every theorem quantifies
over all their possible outputs).
-/

set_option maxRecDepth 4000

/-! ### Column-center outlier removal (`mask_method_one.rm_outliers`)

The source computes `diff = np.diff(arr)`, then
`outliers = np.where(np.abs(diff) >= np.nanmean(diff) + 3*np.nanstd(diff))`
and sets `arr[outliers] = 0`.  `np.where` returns indices into `diff`, so
index `i` of `arr` (the EARLIER column of the pair `(i, i+1)`) is zeroed.
The comparison `|d| >= m + 3*sqrt(v)` is encoded without square roots as
`m ≤ |d| ∧ 9*v ≤ (|d| - m)^2`, which is equivalent over the reals because
`3*sqrt v ≥ 0` (see `outlierTest_iff_sqrt` below). -/

/-- `np.diff`: consecutive differences `a[i+1] - a[i]`. -/
def listDiffs (a : List ℤ) : List ℤ :=
  List.zipWith (fun x2 x1 => x2 - x1) a.tail a

/-- `np.nanmean` of an integer list, as an exact rational. -/
def meanQ (l : List ℤ) : ℚ :=
  ((l.sum : ℤ) : ℚ) / (l.length : ℚ)

/-- `np.nanstd` squared (population variance, `ddof = 0`). -/
def varQ (l : List ℤ) : ℚ :=
  ((l.map (fun d : ℤ => ((d : ℚ) - meanQ l) ^ 2)).sum) / (l.length : ℚ)

/-- the source's test `|d| >= mean + 3*std`, with `mean = s/n`,
`variance = (n*ss - s^2)/n^2` (`s`, `ss`: sum and sum of squares of the
differences).  Clearing the positive denominators and squaring the
square root gives the integer comparisons below; `outlierTest_eq_ratTest`
and `outlierTest_iff_sqrt` prove the encoding equal to the
mean/standard-deviation form. -/
def outlierTest (d s ss : ℤ) (n : ℕ) : Bool :=
  decide (s ≤ (n : ℤ) * |d|) &&
  decide (9 * ((n : ℤ) * ss - s ^ 2) ≤ ((n : ℤ) * |d| - s) ^ 2)

/-- sum of squares of a list of integers. -/
def sumSq (l : List ℤ) : ℤ := (l.map (fun x => x ^ 2)).sum

/-- is difference index `i` flagged by `np.where` in `rm_outliers`?
Out-of-range indices are never flagged (an empty `diff` produces NaN
statistics in numpy, and every comparison against NaN is False). -/
def outlierIdx (a : List ℤ) (i : ℕ) : Bool :=
  match (listDiffs a).get? i with
  | Option.some d =>
      outlierTest d (listDiffs a).sum (sumSq (listDiffs a)) (listDiffs a).length
  | Option.none => false

/-- the fancy assignment `arr[outliers] = 0`, one index at a time. -/
def setZeros (idxs : List ℕ) (a : List ℤ) : List ℤ :=
  idxs.foldl (fun b i => b.set i 0) a

/-- `rm_outliers` from `mask_method_one`: zero every (earlier) column whose
forward difference is flagged. -/
def rm_outliers (a : List ℤ) : List ℤ :=
  setZeros ((List.range (a.length - 1)).filter (outlierIdx a)) a

/-- structural index-passing map (avoids the `Array`-based `List.mapIdx`). -/
def mapIdxFrom (f : ℕ → ℤ → ℤ) : ℕ → List ℤ → List ℤ
  | _, [] => []
  | i, a :: t => f i a :: mapIdxFrom f (i + 1) t

/-- the strict (`>`) variant of the threshold test, used only by the spec's
reading of the outlier pass. -/
def strictOutlierIdx (a : List ℤ) (i : ℕ) : Bool :=
  match (listDiffs a).get? i with
  | Option.some d =>
      decide ((listDiffs a).sum ≤ ((listDiffs a).length : ℤ) * |d|) &&
      decide (9 * (((listDiffs a).length : ℤ) * sumSq (listDiffs a) - (listDiffs a).sum ^ 2) <
        (((listDiffs a).length : ℤ) * |d| - (listDiffs a).sum) ^ 2)
  | Option.none => false

/-- Modelled from the spec: outlier removal as the spec sentence states it —
the magnitude must STRICTLY exceed `mean + 3*std`, and the LATER column of
the offending pair is reset to the sentinel. -/
def rmOutliersSpecLater (a : List ℤ) : List ℤ :=
  mapIdxFrom (fun i v => if 1 ≤ i ∧ strictOutlierIdx a (i - 1) then 0 else v) 0 a

/-! ### Images and the frame preprocessor (`image_filtering`)

Images are rational-valued matrices given by dimensions plus a total value
function; boolean masks likewise.  The skimage/scipy filters are modelled
as follows:
* `filters.rank.maximum(img/max, disk(radius))` — the float image is
  quantised to `uint8` (`round (255*v)`), then each pixel takes the
  maximum over a disk neighbourhood; `np.array(·, dtype=bool)` makes the
  pixel True iff some neighbour quantises to a nonzero byte (`ubyteHit`).
  (numpy turns `0/0` into NaN for an all-zero frame; the `uint8` cast then
  yields byte 0, which the `imgMax img = 0` branch below reproduces.)
* `gaussian_filter` and the smoothing inside `canny` are linear
  convolutions; the kernel is a parameter (`Kern`), so theorems hold for
  every kernel.  Border handling is modelled by clamping to the nearest
  pixel; no theorem below depends on the border mode.
* `filters.sobel` returns the gradient magnitude
  `sqrt(h^2 + v^2)` (up to normalisation); the code only uses its
  positivity (`edges[edges>0] = 1`), so the squared magnitude is kept.
* `feature.canny` — Gaussian smoothing, Sobel gradients, double
  thresholding (`mag > low` / `mag > high`, encoded on squares with the
  thresholds nonnegative as in skimage), and hysteresis: weak pixels
  8-connected to a strong pixel.  Non-maximum suppression only removes
  candidate pixels and is omitted; the theorems below use the model only
  where the gradient vanishes identically, where suppression is vacuous.
-/

structure Img where
  rows : ℕ
  cols : ℕ
  val : ℕ → ℕ → ℚ

structure BImg where
  rows : ℕ
  cols : ℕ
  val : ℕ → ℕ → Bool

/-- clamp an integer coordinate into `[0, n-1]` (border replication). -/
def clampIdx (x : ℤ) (n : ℕ) : ℕ := (min (max x 0) ((n : ℤ) - 1)).toNat

/-- pixel access at integer coordinates with clamped borders. -/
def Img.valC (img : Img) (i j : ℤ) : ℚ :=
  img.val (clampIdx i img.rows) (clampIdx j img.cols)

/-- all offsets of the square window of radius `r`. -/
def offsList (r : ℕ) : List (ℤ × ℤ) :=
  (List.range (2 * r + 1)).flatMap
    (fun a => (List.range (2 * r + 1)).map (fun b => ((a : ℤ) - r, (b : ℤ) - r)))

/-- `skimage.morphology.disk r`: offsets with `di^2 + dj^2 ≤ r^2`. -/
def diskOffsets (r : ℕ) : List (ℤ × ℤ) :=
  (offsList r).filter (fun o => decide (o.1 ^ 2 + o.2 ^ 2 ≤ (r : ℤ) ^ 2))

/-- a convolution kernel: window radius and rational weights. -/
structure Kern where
  r : ℕ
  w : ℤ → ℤ → ℚ

/-- linear convolution/correlation with clamped borders. -/
def convolve (k : Kern) (img : Img) : Img :=
  ⟨img.rows, img.cols, fun i j =>
    (offsList k.r).foldl
      (fun s o => s + k.w o.1 o.2 * img.valC ((i : ℤ) + o.1) ((j : ℤ) + o.2)) 0⟩

/-- every pixel of an image, row-major. -/
def imgElems (img : Img) : List ℚ :=
  (List.range img.rows).flatMap (fun i => (List.range img.cols).map (fun j => img.val i j))

/-- `np.nanmax` over a 2-D image (0 for an empty image). -/
def imgMax (img : Img) : ℚ :=
  match imgElems img with
  | [] => 0
  | a :: t => t.foldl max a

/-- the frame normalised by its maximum (`img/np.nanmax(img)`). -/
def normImg (img : Img) : Img :=
  ⟨img.rows, img.cols, fun i j => if imgMax img = 0 then 0 else img.val i j / imgMax img⟩

/-- does a normalised value quantise to a nonzero `uint8` byte? -/
def ubyteHit (q : ℚ) : Bool := decide (1 ≤ round (255 * q))

/-- `filters.rank.maximum(img/max, disk(radius))` as a boolean mask. -/
def coarseMask (radius : ℕ) (img : Img) : ℕ → ℕ → Bool := fun i j =>
  (diskOffsets radius).any
    (fun o => ubyteHit ((normImg img).valC ((i : ℤ) + o.1) ((j : ℤ) + o.2)))

/-- `data = img * ~mask`: keep only pixels outside the coarse foreground. -/
def maskedData (radius : ℕ) (img : Img) : Img :=
  ⟨img.rows, img.cols, fun i j => if coarseMask radius img i j then 0 else img.val i j⟩

/-- Gaussian smoothing followed by the clip `g[g>6] = 200`. -/
def smoothClip (gk : Kern) (radius : ℕ) (img : Img) : Img :=
  ⟨img.rows, img.cols, fun i j =>
    if 6 < (convolve gk (maskedData radius img)).val i j then 200
    else (convolve gk (maskedData radius img)).val i j⟩

/-- the horizontal Sobel kernel (`[[1,2,1],[0,0,0],[-1,-2,-1]]/4`). -/
def sobelHk : Kern :=
  ⟨1, fun di dj =>
    (if di = -1 then (1 : ℚ) else if di = 1 then -1 else 0) *
    (if dj = 0 then 2 else 1) / 4⟩

/-- the vertical Sobel kernel (transpose of `sobelHk`). -/
def sobelVk : Kern :=
  ⟨1, fun di dj =>
    (if dj = -1 then (1 : ℚ) else if dj = 1 then -1 else 0) *
    (if di = 0 then 2 else 1) / 4⟩

/-- squared Sobel gradient magnitude at a pixel. -/
def sobelSq (img : Img) (i j : ℕ) : ℚ :=
  (convolve sobelHk img).val i j ^ 2 + (convolve sobelVk img).val i j ^ 2

/-- `edges = filters.sobel(g); edges[edges>0] = 1` (the magnitude is
nonnegative, so zeros stay 0 and positive values become 1). -/
def sobelBin (img : Img) : Img :=
  ⟨img.rows, img.cols, fun i j => if 0 < sobelSq img i j then 1 else 0⟩

/-- `edges = (edges - np.nanmax(edges)) * -1`. -/
def edgesFlipped (img : Img) : Img :=
  ⟨img.rows, img.cols, fun i j => imgMax (sobelBin img) - (sobelBin img).val i j⟩

/-- is `(x, y)` inside the frame and set in the mask `m`? -/
def inBoundsHit (r c : ℕ) (m : ℕ → ℕ → Bool) (x y : ℤ) : Bool :=
  decide (0 ≤ x) && decide (x < (r : ℤ)) && decide (0 ≤ y) && decide (y < (c : ℤ)) &&
  m x.toNat y.toNat

/-- does any 8-neighbour of `(i, j)` hit in `cur`? -/
def neighbor8 (r c : ℕ) (cur : ℕ → ℕ → Bool) (i j : ℕ) : Bool :=
  (offsList 1).any (fun o =>
    (!(decide (o.1 = 0) && decide (o.2 = 0))) &&
    inBoundsHit r c cur ((i : ℤ) + o.1) ((j : ℤ) + o.2))

/-- one dilation step of hysteresis growth, restricted to weak pixels. -/
def growStep (r c : ℕ) (weak cur : ℕ → ℕ → Bool) : ℕ → ℕ → Bool :=
  fun i j => cur i j || (weak i j && neighbor8 r c cur i j)

/-- iterate the growth step (`r*c` steps reach the fixpoint). -/
def growIter (r c : ℕ) (weak : ℕ → ℕ → Bool) : ℕ → (ℕ → ℕ → Bool) → ℕ → ℕ → Bool
  | 0, cur => cur
  | n + 1, cur => growIter r c weak n (growStep r c weak cur)

/-- model of `feature.canny` (see the section comment). -/
def cannyModel (ck : Kern) (low high : ℚ) (img : Img) : BImg :=
  ⟨img.rows, img.cols,
    growIter img.rows img.cols
      (fun i j => decide (low ^ 2 < sobelSq (convolve ck img) i j))
      (img.rows * img.cols)
      (fun i j => decide (high ^ 2 < sobelSq (convolve ck img) i j) &&
                  decide (low ^ 2 < sobelSq (convolve ck img) i j))⟩

/-- `image_filtering(img, radius, gf)`: returns the Canny edge mask and the
smoothed (clipped) image. -/
def image_filtering (radius : ℕ) (gk ck : Kern) (low high : ℚ) (img : Img) :
    BImg × Img :=
  (cannyModel ck low high (edgesFlipped (smoothClip gk radius img)),
   smoothClip gk radius img)

/-- the all-zero frame. -/
def zeroImg (r c : ℕ) : Img := ⟨r, c, fun _ _ => 0⟩

/-- `simplify_niriss_img`: the smoothed image from `image_filtering` on the
(already collapsed) science frame. -/
def simplify_niriss_img (radius : ℕ) (gk ck : Kern) (low high : ℚ) (img : Img) : Img :=
  (image_filtering radius gk ck low high img).2

/-! ### Calibration-region locator (`f277_mask`)

Per column `i` of the cropped edge mask, `inds` are the True rows; when
`len(inds) > 1` the candidate anchor is `(i, (inds[1]+inds[-2])/2)` (the
float midpoint is truncated on assignment into the integer `mid` array;
values are nonnegative, so truncation is floor, i.e. `ℕ` division).
Unset columns keep the zero pair.  The filter
`q = (mid[:,0]<420) & (mid[:,1]>0) & (mid[:,0]>0)` then selects the
returned anchors. -/

/-- candidate anchor of one column (`mid[i]`). -/
def midRow (mask : BImg) (i : ℕ) : ℕ × ℕ :=
  (fun inds =>
    if 1 < inds.length then (i, (inds.getD 1 0 + inds.getD (inds.length - 2) 0) / 2)
    else (0, 0))
  ((List.range mask.rows).filter (fun r2 => mask.val r2 i))

/-- the whole `mid` array. -/
def midCandidates (mask : BImg) : List (ℕ × ℕ) :=
  (List.range mask.cols).map (midRow mask)

/-- `mid[q]`: anchors surviving the column/row validity filter. -/
def f277Anchors (mask : BImg) : List (ℕ × ℕ) :=
  (midCandidates mask).filter
    (fun a => decide (a.1 < 420) && decide (0 < a.2) && decide (0 < a.1))

/-- `img[:150,:500]`: crop to the calibration overlap region. -/
def cropImg (img : Img) (r c : ℕ) : Img := ⟨min r img.rows, min c img.cols, img.val⟩

/-- the anchors returned by `f277_mask` on a collapsed calibration frame. -/
def f277MaskAnchors (radius : ℕ) (gk ck : Kern) (low high : ℚ) (img : Img) :
    List (ℕ × ℕ) :=
  f277Anchors (image_filtering radius gk ck low high (cropImg img 150 500)).1

/-! ### Strategy A (`mask_method_one`)

`find_centers`, the per-order band centers `gcenters_1`/`gcenters_2`, the
point-set assembly of `clean_and_fit`, and the emitted trace table.
`np.polyfit`/`np.poly1d` (floating-point least squares) are abstracted as
the `solver` parameter, so all statements hold for every possible fitted
polynomial.  `np.nanmean(inds)` is assigned into an integer array, which
truncates (floor for the nonnegative row indices): `ℕ` division below. -/

/-- running center of one column: mean row of the positive pixels, 0 if
the column has none. -/
def colCenter (img : Img) (i : ℕ) : ℤ :=
  (fun inds => if inds.isEmpty then 0 else ((inds.sum / inds.length : ℕ) : ℤ))
  ((List.range img.rows).filter (fun r2 => decide (0 < img.val r2 i)))

/-- `find_centers(img, cutends)`: running centers, outlier pass, then the
tail beyond `cutends` forced to the sentinel. -/
def find_centers (img : Img) (cutends : Option ℕ) : List ℤ :=
  (fun r2 => match cutends with
    | Option.none => r2
    | Option.some c => mapIdxFrom (fun i v => if c ≤ i then 0 else v) 0 r2)
  (rm_outliers ((List.range img.cols).map (colCenter img)))

/-- first-order band center of one column: mean of rows `≤ 78` whose
smoothed value exceeds 100. -/
def gc1col (g : Img) (i : ℕ) : ℤ :=
  (fun inds => if inds.isEmpty then 0 else ((inds.sum / inds.length : ℕ) : ℤ))
  ((List.range g.rows).filter (fun r2 => decide (100 < g.val r2 i) && decide (r2 ≤ 78)))

/-- second-order band center of one column: mean of rows `≥ 80` whose
smoothed value exceeds 100. -/
def gc2col (g : Img) (i : ℕ) : ℤ :=
  (fun inds => if inds.isEmpty then 0 else ((inds.sum / inds.length : ℕ) : ℤ))
  ((List.range g.rows).filter (fun r2 => decide (100 < g.val r2 i) && decide (80 ≤ r2)))

/-- `gcenters_1` after its outlier pass. -/
def gcenters1 (g : Img) : List ℤ := rm_outliers ((List.range g.cols).map (gc1col g))

/-- `gcenters_2` after its outlier pass. -/
def gcenters2 (g : Img) : List ℤ := rm_outliers ((List.range g.cols).map (gc2col g))

/-- science-frame points offered to the order-1 fit: columns `> 800`. -/
def sci1pts (g : Img) : List (ℕ × ℤ) :=
  ((List.range g.cols).filter (fun i => decide (800 < i))).map
    (fun i => (i, (gcenters1 g).getD i 0))

/-- science-frame points offered to the order-2 fit: columns in `(800, 1800)`. -/
def sci2pts (g : Img) : List (ℕ × ℤ) :=
  ((List.range g.cols).filter (fun i => decide (800 < i) && decide (i < 1800))).map
    (fun i => (i, (gcenters2 g).getD i 0))

/-- calibration points offered to both fits: every column paired with its
`f_centers` value. -/
def fPairs1 (g f : Img) : List (ℕ × ℤ) :=
  (List.range g.cols).map (fun i => (i, (find_centers f (Option.some 430)).getD i 0))

/-- `clean_and_fit`: drop the points with non-positive center, concatenate,
and hand the rest to the degree-4 `np.polyfit`.  `np.polyfit` raises a
`TypeError` on an empty point set (modelled by `none`); with any nonempty
set — even a single point — it performs the (possibly degenerate) fit.
No `InsufficientSignalError` exists anywhere in the source. -/
def cleanAndFit (p1 p2 : List (ℕ × ℤ)) : Option (List (ℕ × ℤ)) :=
  (fun pts => if pts.isEmpty then Option.none else Option.some pts)
  (p1.filter (fun a => decide (0 < a.2)) ++ p2.filter (fun a => decide (0 < a.2)))

/-- the trace table of `mask_method_one` (None when the code would crash:
mismatched mask widths for the boolean indexing, or an empty point set
handed to `np.polyfit`). -/
def methodOneTableOpt (solver : List (ℕ × ℤ) → ℕ → ℚ) (g f : Img) :
    Option (List (ℕ × ℚ × ℚ)) :=
  if g.cols = f.cols then
    match cleanAndFit (fPairs1 g f) (sci1pts g), cleanAndFit (fPairs1 g f) (sci2pts g) with
    | Option.some q1, Option.some q2 =>
        Option.some ((List.range g.cols).map (fun i => (i, solver q1 i, solver q2 i)))
    | _, _ => Option.none
  else Option.none

/-- `mask_method_one` with its observable diagnostics: the table plus the
list of renderings/writes (a plot when `isplots >= 5`, a CSV write when
`save`); the diagnostics happen only when the computation completes. -/
def methodOneCore (solver : List (ℕ × ℤ) → ℕ → ℚ) (g f : Img)
    (isplots : ℕ) (save : Bool) : Option (List (ℕ × ℚ × ℚ)) × List String :=
  match methodOneTableOpt solver g f with
  | Option.none => (Option.none, [])
  | Option.some t =>
      (Option.some t,
        (if 5 ≤ isplots then ["method-one-order-plot"] else []) ++
        (if save then ["niriss-order-fits-method1-csv"] else []))

/-! ### `scipy.signal.find_peaks` (used by `mask_method_two`)

Model of `find_peaks(x, height, distance)`:
* `_local_maxima_1d`: scan `i` from 1 to `len-2`; on a rising edge
  (`x[i-1] < x[i]`) find the end of the plateau of equal samples; if the
  sample after the plateau is strictly lower, record the plateau midpoint
  (integer division) and resume after the plateau.  The loop index
  strictly increases, so running it on fuel `n` (an upper bound on the
  iteration count) reproduces the `while` loop exactly; the fuel-0 case
  coincides with the loop's exit condition.
* the `height` filter keeps peaks with `x[p] ≥ height`;
* `_select_by_peak_distance`: visit peaks by decreasing height (stable
  ascending argsort, reversed); each still-kept peak clears every other
  peak strictly closer than `distance`.  On the sorted peak list this
  per-side `while` is exactly "clear all `k ≠ j` with
  `|peaks[k]-peaks[j]| < distance`", which is what `clearNeighbors` does.
-/

/-- first index `≥ i` that leaves the plateau of value `v` (or `iMax`). -/
def findAhead (x : ℕ → ℚ) (v : ℚ) (iMax : ℕ) : ℕ → ℕ → ℕ
  | 0, i => i
  | fl + 1, i => if i < iMax ∧ x i = v then findAhead x v iMax fl (i + 1) else i

/-- the local-maxima scan (fuel-indexed; see the section comment). -/
def lmAux (x : ℕ → ℚ) (iMax : ℕ) : ℕ → ℕ → List ℕ
  | 0, _ => []
  | fl + 1, i =>
    if i < iMax then
      if x (i - 1) < x i then
        if x (findAhead x (x i) iMax (iMax - (i + 1)) (i + 1)) < x i then
          (i + (findAhead x (x i) iMax (iMax - (i + 1)) (i + 1) - 1)) / 2 ::
            lmAux x iMax fl (findAhead x (x i) iMax (iMax - (i + 1)) (i + 1) + 1)
        else lmAux x iMax fl (i + 1)
      else lmAux x iMax fl (i + 1)
    else []

/-- all plateau-midpoint local maxima of a signal of length `n`. -/
def localMaxima (x : ℕ → ℚ) (n : ℕ) : List ℕ := lmAux x (n - 1) n 1

/-- stable insertion into an ascending list (ties keep insertion order,
matching a stable argsort). -/
def insertAsc (le : ℕ → ℕ → Bool) (a : ℕ) : List ℕ → List ℕ
  | [] => [a]
  | b :: bs => if le b a then b :: insertAsc le a bs else a :: b :: bs

/-- stable ascending sort by insertion. -/
def sortAsc (le : ℕ → ℕ → Bool) (l : List ℕ) : List ℕ :=
  l.foldl (fun acc x => insertAsc le x acc) []

/-- distance between two indices. -/
def natDist (a b : ℕ) : ℕ := max a b - min a b

/-- clear every kept flag of a peak strictly closer than `dist` to peak `j`. -/
def clearNeighbors (peaks : List ℕ) (dist j : ℕ) (keep : List Bool) : List Bool :=
  (List.range peaks.length).foldl
    (fun kp k =>
      if k ≠ j ∧ natDist (peaks.getD k 0) (peaks.getD j 0) < dist then kp.set k false
      else kp) keep

/-- the final kept-flags of `_select_by_peak_distance`: visit peaks by
decreasing priority (stable ascending argsort, reversed). -/
def keepFlags (x : ℕ → ℚ) (peaks : List ℕ) (dist : ℕ) : List Bool :=
  ((sortAsc (fun a b => decide (x (peaks.getD a 0) ≤ x (peaks.getD b 0)))
      (List.range peaks.length)).reverse).foldl
    (fun keep j => if keep.getD j false then clearNeighbors peaks dist j keep else keep)
    (List.replicate peaks.length true)

/-- `_select_by_peak_distance` (priorities are the signal heights). -/
def selectByDist (x : ℕ → ℚ) (peaks : List ℕ) (dist : ℕ) : List ℕ :=
  (List.range peaks.length).filterMap
    (fun k => if (keepFlags x peaks dist).getD k false then Option.some (peaks.getD k 0)
              else Option.none)

/-- `identify_peaks` = `find_peaks(column, height, distance)`. -/
def findPeaksM (x : ℕ → ℚ) (n : ℕ) (height : ℚ) (dist : ℕ) : List ℕ :=
  selectByDist x ((localMaxima x n).filter (fun p => decide (height ≤ x p))) dist

/-! ### Strategy B (`mask_method_two`)

Inputs: `sci` is the cosmic-ray-cleaned summed science frame (the output
of the external `ccdproc.cosmicray_lacosmic`, taken as an input so every
theorem quantifies over all its possible outputs) and `f277` the summed
calibration frame.  Columns `i < 500` use height 2000, `500 ≤ i < 700`
height 100, `i ≥ 700` height 5000; columns `i < 900` additionally drop
peaks at rows `≤ 40`.  Each column stores up to 6 peak rows (zeros
elsewhere).  NOTE: the source's outlier trim
`good = np.where(|diff| <= median+2*std); good = good[5:-5]` slices the
1-tuple returned by `np.where` down to the EMPTY tuple, and indexing a
numpy array with an empty tuple is the identity — so the median-based
trim has no effect on the fitted points and is omitted here. -/

/-- peak rows of one science column after the height bands and the
row-40 guard. -/
def peaksList (sci : Img) (i : ℕ) : List ℕ :=
  (fun p => if i < 900 then p.filter (fun v => decide (40 < v)) else p)
  (findPeaksM (fun r2 => sci.val r2 i) sci.rows
    (if i < 500 then 2000 else if i < 700 then 100 else 5000) 10)

/-- slot `ind` of the `peaks` array (0 when fewer peaks were found). -/
def peaksAt (sci : Img) (i ind : ℕ) : ℚ := (((peaksList sci i).getD ind 0 : ℕ) : ℚ)

/-- row `i` of `f277_peaks`: the two peak rows of the summed calibration
column when `find_peaks` (height 100000, distance 10) finds exactly two —
only for the columns the loop visits (`i < sci.cols`). -/
def f277Row (sci f277 : Img) (i : ℕ) : ℚ × ℚ :=
  if i < sci.cols then
    match findPeaksM (fun r2 => f277.val r2 i) f277.rows 100000 10 with
    | [a, b] => ((a : ℚ), (b : ℚ))
    | _ => (0, 0)
  else (0, 0)

/-- `xf`: calibration columns whose stored first peak is nonzero. -/
def xfList (sci f277 : Img) : List ℕ :=
  (List.range f277.cols).filter (fun i => !decide ((f277Row sci f277 i).1 = 0))

/-- the point set handed to the degree-4 `np.polyfit` for boundary `ind`
(calibration part first, then the science peaks beyond `xf[-1]`); `[]`
when `xf` is empty (the source would crash on `xf[-1]` first). -/
def methodTwoPoints (sci f277 : Img) (ind : ℕ) : List (ℕ × ℚ) :=
  match (xfList sci f277).getLast? with
  | Option.none => []
  | Option.some xl =>
      ((if ind < 2 then (xfList sci f277).dropLast else (xfList sci f277).take 250).map
        (fun i => (i, if ind = 0 ∨ ind = 2 then (f277Row sci f277 i).1
                      else (f277Row sci f277 i).2))) ++
      (((List.range sci.cols).filter (fun i => decide (0 < peaksAt sci i ind))).map
        (fun i => (i, peaksAt sci i ind))).filter (fun a => decide (xl < a.1))

/-- do all the array accesses of `mask_method_two` stay in bounds and all
four `np.polyfit` calls get a nonempty point set?  (Otherwise the source
raises: `summed_f277[:,i]` for `i ≥ f277.cols`, broadcasting more than 6
peaks into `peaks[i]`, `xf[-1]` on an empty `xf`, or `np.polyfit` on an
empty vector.) -/
def methodTwoValid (sci f277 : Img) : Bool :=
  decide (sci.cols ≤ f277.cols) &&
  (List.range sci.cols).all (fun i => decide ((peaksList sci i).length ≤ 6)) &&
  !(xfList sci f277).isEmpty &&
  (List.range 4).all (fun ind => !(methodTwoPoints sci f277 ind).isEmpty)

/-- the trace table of `mask_method_two`: per column the medians of the two
boundary curves of each order (the median of two values is their mean). -/
def methodTwoTableOpt (solver : List (ℕ × ℚ) → ℕ → ℚ) (sci f277 : Img) :
    Option (List (ℕ × ℚ × ℚ)) :=
  if methodTwoValid sci f277 then
    Option.some ((List.range sci.cols).map (fun i =>
      (i, (solver (methodTwoPoints sci f277 0) i + solver (methodTwoPoints sci f277 1) i) / 2,
          (solver (methodTwoPoints sci f277 2) i + solver (methodTwoPoints sci f277 3) i) / 2)))
  else Option.none

/-- `mask_method_two` with its observable diagnostics. -/
def methodTwoCore (solver : List (ℕ × ℚ) → ℕ → ℚ) (sci f277 : Img)
    (isplots : ℕ) (save : Bool) : Option (List (ℕ × ℚ × ℚ)) × List String :=
  match methodTwoTableOpt solver sci f277 with
  | Option.none => (Option.none, [])
  | Option.some t =>
      (Option.some t,
        (if 5 ≤ isplots then ["method-two-order-plot"] else []) ++
        (if save then ["niriss-order-fits-method2-csv"] else []))

/-! ### `readEPF.Parameter` (`lib/readEPF.py`)

Python values relevant to the `ptype` property setter, with Python's
equality quirks: `param_type in [True, False]` is membership by `==`, and
`1 == True`, `0 == False`, `1.0 == True` hold in Python, so the numbers
0 and 1 (int or float) take the boolean branch.  The setter raises
`ValueError` BEFORE assigning `self._ptype`, so a failed assignment
leaves the stored value unchanged — in this purely functional model an
`Except.error` result returns no updated object at all. -/

inductive PVal where
  | str (s : String)
  | bool (b : Bool)
  | int (n : ℤ)
  | rat (q : ℚ)
  | none
  | list (l : List PVal)

inductive PyErr where
  | valueError (msg : String)
  | typeError (msg : String)

/-- the four legal parameter types. -/
def ptypeNames : List String := ["free", "fixed", "independent", "shared"]

/-- does `v in [True, False]` hold in Python? -/
def isBoolLike : PVal → Bool
  | PVal.bool _ => true
  | PVal.int n => decide (n = 0) || decide (n = 1)
  | PVal.rat q => decide (q = 0) || decide (q = 1)
  | _ => false

/-- the body of the `ptype` property setter. -/
def ptypeSetter (v : PVal) : Except PyErr String :=
  if isBoolLike v then
    Except.error (PyErr.valueError ("Boolean ptype values are deprecated"))
  else
    match v with
    | PVal.str s =>
        if s ∈ ptypeNames then Except.ok s
        else Except.error (PyErr.valueError ("ptype must be free fixed independent or shared"))
    | _ => Except.error (PyErr.valueError ("ptype must be free fixed independent or shared"))

structure Parameter where
  name : String
  value : PVal
  mn : PVal
  mx : PVal
  prior : PVal
  ptype : String

/-- `Parameter.__init__`: distribute a list value (`value, *other = value`,
then `ptype, *other = other` when more than one element remains, then
`mn, mx = other` when any remain — which raises `ValueError` unless
exactly two are left), and run the `ptype` setter. -/
def paramInit (name : String) (value ptypeArg mn mx prior : PVal) :
    Except PyErr Parameter :=
  match
    (match value with
     | PVal.list [] => Except.error (PyErr.valueError ("not enough values to unpack"))
     | PVal.list (v :: other) =>
         (fun pr : PVal × List PVal =>
           match pr.2 with
           | [] => Except.ok (v, pr.1, mn, mx)
           | [a, b] => Except.ok (v, pr.1, a, b)
           | _ => Except.error (PyErr.valueError ("values to unpack")))
         (match other with
          | p :: r2 :: rest => (p, r2 :: rest)
          | _ => (ptypeArg, other))
     | v => Except.ok (v, ptypeArg, mn, mx)) with
  | Except.error e => Except.error e
  | Except.ok (v, pt, m1, m2) =>
      match ptypeSetter pt with
      | Except.error e => Except.error e
      | Except.ok s => Except.ok ⟨name, v, m1, m2, prior, s⟩

/-- assigning `p.ptype = v` after construction. -/
def setPtype (p : Parameter) (v : PVal) : Except PyErr Parameter :=
  match ptypeSetter v with
  | Except.ok s => Except.ok { p with ptype := s }
  | Except.error e => Except.error e

/-! ### Concrete instances used to exercise the theorems -/

/-- a mask whose columns 0 and 1 have three set rows each. -/
def maskW : BImg :=
  ⟨5, 3, fun r2 c2 => decide ((c2 = 0 ∨ c2 = 1) ∧ (r2 = 1 ∨ r2 = 2 ∨ r2 = 3))⟩

/-- a constant smoothed image, value 500. -/
def gW500 : Img := ⟨2, 2, fun _ _ => 500⟩

/-- a constant smoothed image, value 200. -/
def gW200 : Img := ⟨2, 2, fun _ _ => 200⟩

/-- a blank 802-column smoothed image (wide enough for columns `> 800`). -/
def gWide : Img := ⟨1, 802, fun _ _ => 0⟩

/-- a degenerate stand-in for the `np.polyfit` solver on integer points. -/
def solverZ : List (ℕ × ℤ) → ℕ → ℚ := fun _ _ => 0

/-- a degenerate stand-in for the `np.polyfit` solver on rational points. -/
def solverZQ : List (ℕ × ℚ) → ℕ → ℚ := fun _ _ => 0

/-- a blank 3x3 science-side smoothed image. -/
def gT : Img := zeroImg 3 3

/-- a 3x3 calibration mask with two set rows in column 1. -/
def fT : Img := ⟨3, 3, fun r2 c2 => if c2 = 1 ∧ (r2 = 1 ∨ r2 = 2) then 1 else 0⟩

/-- a blank 3-row, 2-column cleaned science frame. -/
def sciT : Img := zeroImg 3 2

/-- a 15-row, 2-column summed calibration frame with bright rows 2 and 13
(two peaks more than 10 rows apart in every column). -/
def f277T : Img := ⟨15, 2, fun r2 _ => if r2 = 2 ∨ r2 = 13 then 200000 else 0⟩

/-- the method-one trace table of the instance above. -/
def m1T : List (ℕ × ℚ × ℚ) := ((methodOneCore solverZ gT fT 0 false).1).getD []

/-- the method-two trace table of the instance above. -/
def m2T : List (ℕ × ℚ × ℚ) := ((methodTwoCore solverZQ sciT f277T 0 false).1).getD []

/-- a concrete valid parameter. -/
def samplePar : Parameter :=
  ⟨("t"), PVal.int 3, PVal.none, PVal.none, PVal.none, ("free")⟩

/-! ### basic lemmas for the outlier pass -/

theorem sum_map_sub_sq (l : List ℤ) (m : ℚ) :
    (l.map (fun d : ℤ => ((d : ℚ) - m) ^ 2)).sum =
      (sumSq l : ℚ) - 2 * m * ((l.sum : ℤ) : ℚ) + (l.length : ℚ) * m ^ 2 := by
  induction l with
  | nil => simp [sumSq]
  | cons a t ih =>
      simp only [List.map_cons, List.sum_cons, ih, sumSq, List.length_cons]
      push_cast
      ring

theorem varQ_eq (l : List ℤ) (hl : l ≠ []) :
    varQ l = (((l.length : ℤ) * sumSq l - l.sum ^ 2 : ℤ) : ℚ) / (l.length : ℚ) ^ 2 := by
  have hn : (0 : ℚ) < (l.length : ℚ) := by
    have := List.length_pos.mpr hl
    exact_mod_cast this
  rw [varQ, sum_map_sub_sq, meanQ]
  field_simp
  ring

theorem outlierTest_eq_ratTest (l : List ℤ) (d : ℤ) (hl : l ≠ []) :
    outlierTest d l.sum (sumSq l) l.length =
      (decide (meanQ l ≤ |(d : ℚ)|) &&
       decide (9 * varQ l ≤ (|(d : ℚ)| - meanQ l) ^ 2)) := by
  have hn : (0 : ℚ) < (l.length : ℚ) := by
    have := List.length_pos.mpr hl
    exact_mod_cast this
  have habs : |(d : ℚ)| = ((|d| : ℤ) : ℚ) := by push_cast; rfl
  have h1 : (l.sum ≤ (l.length : ℤ) * |d|) ↔ meanQ l ≤ |(d : ℚ)| := by
    rw [meanQ, div_le_iff₀ hn, habs, mul_comm]
    exact_mod_cast Iff.rfl
  have hsq : (|(d : ℚ)| - meanQ l) ^ 2 =
      ((((l.length : ℤ) * |d| - l.sum) ^ 2 : ℤ) : ℚ) / (l.length : ℚ) ^ 2 := by
    rw [habs, meanQ]
    field_simp
    ring
  have h2 : (9 * ((l.length : ℤ) * sumSq l - l.sum ^ 2) ≤
      ((l.length : ℤ) * |d| - l.sum) ^ 2) ↔
      9 * varQ l ≤ (|(d : ℚ)| - meanQ l) ^ 2 := by
    rw [varQ_eq l hl, hsq, ← mul_div_assoc,
        div_le_div_iff_of_pos_right (by positivity : (0 : ℚ) < (l.length : ℚ) ^ 2)]
    exact_mod_cast Iff.rfl
  rw [outlierTest, decide_eq_decide.mpr h1, decide_eq_decide.mpr h2]

theorem outlierTest_iff_sqrt (d s ss : ℤ) (n : ℕ)
    (hv : (0 : ℤ) ≤ (n : ℤ) * ss - s ^ 2) :
    outlierTest d s ss n = true ↔
      (s : ℝ) + 3 * Real.sqrt (((n : ℤ) * ss - s ^ 2 : ℤ) : ℝ) ≤ (n : ℝ) * |(d : ℝ)| := by
  have hV : (0 : ℝ) ≤ (((n : ℤ) * ss - s ^ 2 : ℤ) : ℝ) := by exact_mod_cast hv
  have habs : |(d : ℝ)| = ((|d| : ℤ) : ℝ) := by push_cast; rfl
  rw [outlierTest, Bool.and_eq_true, decide_eq_true_eq, decide_eq_true_eq]
  constructor
  · rintro ⟨h1, h2⟩
    have h1R : (s : ℝ) ≤ (n : ℝ) * |(d : ℝ)| := by rw [habs]; exact_mod_cast h1
    have h2R : 9 * (((n : ℤ) * ss - s ^ 2 : ℤ) : ℝ) ≤ ((n : ℝ) * |(d : ℝ)| - s) ^ 2 := by
      rw [habs]; exact_mod_cast h2
    have h3 := Real.sqrt_le_sqrt h2R
    rw [Real.sqrt_sq (by linarith)] at h3
    have h4 : Real.sqrt (9 * (((n : ℤ) * ss - s ^ 2 : ℤ) : ℝ)) =
        3 * Real.sqrt (((n : ℤ) * ss - s ^ 2 : ℤ) : ℝ) := by
      rw [show (9 : ℝ) * (((n : ℤ) * ss - s ^ 2 : ℤ) : ℝ) =
            3 ^ 2 * (((n : ℤ) * ss - s ^ 2 : ℤ) : ℝ) by ring,
          Real.sqrt_mul (by positivity), Real.sqrt_sq (by norm_num)]
    linarith [h3, h4.symm.trans_le h3]
  · intro h
    have hs : (0 : ℝ) ≤ 3 * Real.sqrt (((n : ℤ) * ss - s ^ 2 : ℤ) : ℝ) := by positivity
    have h1R : (s : ℝ) ≤ (n : ℝ) * |(d : ℝ)| := by linarith
    have hT : 3 * Real.sqrt (((n : ℤ) * ss - s ^ 2 : ℤ) : ℝ) ≤
        (n : ℝ) * |(d : ℝ)| - s := by linarith
    have hsq := pow_le_pow_left₀ hs hT 2
    rw [mul_pow, Real.sq_sqrt hV] at hsq
    refine ⟨by rw [habs] at h1R; exact_mod_cast h1R, ?_⟩
    have : 9 * (((n : ℤ) * ss - s ^ 2 : ℤ) : ℝ) ≤ ((n : ℝ) * |(d : ℝ)| - s) ^ 2 := by
      nlinarith [hsq]
    rw [habs] at this
    exact_mod_cast this

theorem getD_set_int : ∀ (l : List ℤ) (i j : ℕ) (v : ℤ),
    (l.set i v).getD j 0 = if i = j ∧ j < l.length then v else l.getD j 0 := by
  intro l
  induction l with
  | nil => intro i j v; simp
  | cons a t ih =>
      intro i j v
      cases i with
      | zero =>
          cases j with
          | zero => simp
          | succ j => simp
      | succ i =>
          cases j with
          | zero => simp
          | succ j =>
              show (a :: t.set i v).getD (j + 1) 0 = _
              simp only [List.getD_cons_succ, List.length_cons]
              rw [ih i j v]
              by_cases h : i = j ∧ j < t.length
              · rw [if_pos h, if_pos ⟨by omega, by omega⟩]
              · rw [if_neg h, if_neg (by omega)]

theorem setZeros_length : ∀ (idxs : List ℕ) (a : List ℤ),
    (setZeros idxs a).length = a.length := by
  intro idxs
  induction idxs with
  | nil => intro a; rfl
  | cons i t ih =>
      intro a
      show (setZeros t (a.set i 0)).length = a.length
      rw [ih, List.length_set]

theorem setZeros_getD : ∀ (idxs : List ℕ) (a : List ℤ) (j : ℕ),
    (setZeros idxs a).getD j 0 =
      if j ∈ idxs ∧ j < a.length then 0 else a.getD j 0 := by
  intro idxs
  induction idxs with
  | nil => intro a j; simp [setZeros]
  | cons i t ih =>
      intro a j
      show (setZeros t (a.set i 0)).getD j 0 = _
      rw [ih, List.length_set, getD_set_int]
      by_cases hjt : j ∈ t ∧ j < a.length
      · rw [if_pos hjt, if_pos ⟨List.mem_cons.mpr (Or.inr hjt.1), hjt.2⟩]
      · rw [if_neg hjt]
        by_cases hij : i = j ∧ j < a.length
        · rw [if_pos hij, if_pos ⟨List.mem_cons.mpr (Or.inl hij.1.symm), hij.2⟩]
        · rw [if_neg hij]
          by_cases hmem : j ∈ i :: t ∧ j < a.length
          · rw [List.mem_cons] at hmem
            rcases hmem.1 with h | h
            · exact absurd ⟨h.symm, hmem.2⟩ hij
            · exact absurd ⟨h, hmem.2⟩ hjt
          · rw [if_neg hmem]

theorem length_listDiffs (a : List ℤ) : (listDiffs a).length = a.length - 1 := by
  simp [listDiffs, List.length_zipWith]

theorem outlierIdx_lt {a : List ℤ} {i : ℕ} (h : outlierIdx a i = true) :
    i + 1 < a.length := by
  unfold outlierIdx at h
  rcases hg : (listDiffs a).get? i with _ | d
  · rw [hg] at h; exact absurd h (by simp)
  · have := List.get?_eq_some.mp hg
    have hl : i < (listDiffs a).length := this.1
    rw [length_listDiffs] at hl
    omega

theorem rm_outliers_length (a : List ℤ) : (rm_outliers a).length = a.length :=
  setZeros_length _ a

theorem rm_outliers_getD (a : List ℤ) (i : ℕ) :
    (rm_outliers a).getD i 0 = if outlierIdx a i then 0 else a.getD i 0 := by
  unfold rm_outliers
  rw [setZeros_getD]
  by_cases ho : outlierIdx a i = true
  · have hlt := outlierIdx_lt ho
    rw [if_pos ⟨List.mem_filter.mpr ⟨List.mem_range.mpr (by omega), ho⟩, by omega⟩,
        if_pos ho]
  · rw [if_neg ho, if_neg]
    intro hmem
    exact absurd (List.mem_filter.mp hmem.1).2 ho

/-! ### Claim theorems -/

/-- C2: pointwise behaviour of the outlier pass.  For every center
sequence, the pass computes the first differences and, for each difference
whose magnitude is AT LEAST (`>=`, not strictly greater than) the mean
plus three standard deviations of all differences, resets the EARLIER of
the two columns (the one at the difference's index) to the sentinel 0,
leaving every other column unchanged (`outlierIdx` is the `>=` threshold
test on difference `i`; `outlierTest_eq_ratTest` and
`outlierTest_iff_sqrt` relate it to the mean/standard-deviation form). -/
theorem rm_outliers_pointwise (a : List ℤ) (i : ℕ) :
    (rm_outliers a).length = a.length ∧
    (rm_outliers a).getD i 0 = if outlierIdx a i then 0 else a.getD i 0 :=
  ⟨rm_outliers_length a, rm_outliers_getD a i⟩

/-- C2 counterexample: on the linear sequence `[1,2,3,4]` every difference
equals the mean exactly (standard deviation 0), so the source's `>=` test
fires everywhere and zeroes the EARLIER columns, yielding `[0,0,0,4]`;
under the spec's reading (strict `>` with the LATER column reset) the
sequence is unchanged.  Fixing only one of the two discrepancies still
disagrees with the code: strict-later gives `[1,2,3,4]` and a
nonstrict-later variant would give `[1,0,0,0]`, neither equal to
`[0,0,0,4]`. -/
theorem rm_outliers_spec_reading_fails :
    rm_outliers [1, 2, 3, 4] = [0, 0, 0, 4] ∧
    rmOutliersSpecLater [1, 2, 3, 4] = [1, 2, 3, 4] ∧
    rm_outliers [1, 2, 3, 4] ≠ rmOutliersSpecLater [1, 2, 3, 4] := by
  refine ⟨by decide, by decide, by decide⟩

/-- C3: the outlier pass only ever writes the sentinel — every output
entry is either 0 or the original entry, and entries that are already 0
stay 0 under any further pass.  (It is NOT idempotent: see
`rm_outliers_not_idempotent`.) -/
theorem rm_outliers_only_zeroes (a : List ℤ) (i : ℕ) :
    ((rm_outliers a).getD i 0 = 0 ∨ (rm_outliers a).getD i 0 = a.getD i 0) ∧
    (a.getD i 0 = 0 → (rm_outliers a).getD i 0 = 0) := by
  constructor
  · by_cases h : outlierIdx a i = true
    · exact Or.inl (by rw [rm_outliers_getD, if_pos h])
    · exact Or.inr (by rw [rm_outliers_getD, if_neg h])
  · intro h0
    by_cases h : outlierIdx a i = true
    · rw [rm_outliers_getD, if_pos h]
    · rw [rm_outliers_getD, if_neg h, h0]

theorem rm_outliers_only_zeroes_witness :
    (((rm_outliers [0, 5]).getD 0 0 = 0 ∨
      (rm_outliers [0, 5]).getD 0 0 = ([0, 5] : List ℤ).getD 0 0)) ∧
    (rm_outliers [0, 5]).getD 0 0 = 0 :=
  ⟨(rm_outliers_only_zeroes [0, 5] 0).1,
   (rm_outliers_only_zeroes [0, 5] 0).2 (by decide)⟩

/-- C3 counterexample: the pass is not idempotent.  On
`[50,50,50,50,50,50,50,50,50,5]` the first pass zeroes index 8 (the drop
to 5 is an outlier), creating a new 50-to-0 drop at index 7 which the
second pass then zeroes as well: applying the pass twice differs from
applying it once. -/
theorem rm_outliers_not_idempotent :
    rm_outliers [50, 50, 50, 50, 50, 50, 50, 50, 50, 5] =
      [50, 50, 50, 50, 50, 50, 50, 50, 0, 5] ∧
    rm_outliers (rm_outliers [50, 50, 50, 50, 50, 50, 50, 50, 50, 5]) =
      [50, 50, 50, 50, 50, 50, 50, 0, 0, 5] ∧
    rm_outliers (rm_outliers [50, 50, 50, 50, 50, 50, 50, 50, 50, 5]) ≠
      rm_outliers [50, 50, 50, 50, 50, 50, 50, 50, 50, 5] := by
  refine ⟨by decide, by decide, by decide⟩

/-- C1: with fewer than 2 surviving calibration anchors — indeed with any
anchor count — `clean_and_fit` never raises: as long as at least one
point survives the positivity filter, the degree-4 polynomial fit is
performed on the surviving points (no `InsufficientSignalError` exists in
the source; the only failure is numpy's `TypeError` on an entirely empty
point set). -/
theorem cleanAndFit_fits_despite_few_anchors (p1 p2 : List (ℕ × ℤ))
    (_hfew : (p1.filter (fun a => decide (0 < a.2))).length < 2)
    (hne : p1.filter (fun a => decide (0 < a.2)) ++
           p2.filter (fun a => decide (0 < a.2)) ≠ []) :
    cleanAndFit p1 p2 =
      Option.some (p1.filter (fun a => decide (0 < a.2)) ++
                   p2.filter (fun a => decide (0 < a.2))) := by
  have hrfl : cleanAndFit p1 p2 =
      if (p1.filter (fun a => decide (0 < a.2)) ++
          p2.filter (fun a => decide (0 < a.2))).isEmpty
      then Option.none
      else Option.some (p1.filter (fun a => decide (0 < a.2)) ++
                        p2.filter (fun a => decide (0 < a.2))) := rfl
  rw [hrfl, if_neg]
  simpa using hne

theorem cleanAndFit_fits_despite_few_anchors_witness :
    cleanAndFit [((5 : ℕ), (7 : ℤ))] [] = Option.some [(5, 7)] :=
  (cleanAndFit_fits_despite_few_anchors [((5 : ℕ), (7 : ℤ))] [] (by decide)
    (by decide)).trans (by decide)

/-- C1 counterexample: a single calibration anchor (fewer than 2), yet the
fit is performed (the point set is handed to `np.polyfit`) instead of any
error being raised. -/
theorem cleanAndFit_one_anchor_still_fits :
    ([((5 : ℕ), (7 : ℤ))].filter (fun a => decide (0 < a.2))).length < 2 ∧
    cleanAndFit [((5 : ℕ), (7 : ℤ))] [] = Option.some [(5, 7)] := by
  refine ⟨by decide, by decide⟩

theorem ptypeSetter_ok_mem {v : PVal} {s : String}
    (h : ptypeSetter v = Except.ok s) : s ∈ ptypeNames := by
  unfold ptypeSetter at h
  by_cases hb : isBoolLike v = true
  · rw [if_pos hb] at h
    exact absurd h (by simp)
  · rw [if_neg hb] at h
    cases v with
    | str s2 =>
        have h2 : (if s2 ∈ ptypeNames then Except.ok s2
            else Except.error
              (PyErr.valueError ("ptype must be free fixed independent or shared"))) =
            Except.ok s := h
        by_cases hm : s2 ∈ ptypeNames
        · rw [if_pos hm] at h2
          have : s2 = s := by simpa using h2
          exact this ▸ hm
        · rw [if_neg hm] at h2
          exact absurd h2 (by simp)
    | bool b => exact absurd h (by simp)
    | int n => exact absurd h (by simp)
    | rat q => exact absurd h (by simp)
    | none => exact absurd h (by simp)
    | list l => exact absurd h (by simp)

/-- C10: every successfully constructed `Parameter` carries one of the four
legal ptype strings; assigning any value that is not one of them (booleans
and the numbers 0/1 included, via Python's `1 == True`) yields a
`ValueError` — and, the model being functional, no updated object, so the
stored ptype is untouched; assigning a legal string succeeds and stores
exactly it. -/
theorem ptype_validation :
    (∀ (name : String) (value ptypeArg mn mx prior : PVal) (p : Parameter),
        paramInit name value ptypeArg mn mx prior = Except.ok p →
        p.ptype = "free" ∨ p.ptype = "fixed" ∨ p.ptype = "independent" ∨
        p.ptype = "shared") ∧
    (∀ (q : Parameter) (v : PVal), (∀ s, v = PVal.str s → s ∉ ptypeNames) →
        ∃ m, setPtype q v = Except.error (PyErr.valueError m)) ∧
    (∀ (q : Parameter) (s : String), s ∈ ptypeNames →
        setPtype q (PVal.str s) = Except.ok { q with ptype := s }) := by
  refine ⟨?_, ?_, ?_⟩
  · intro name value ptypeArg mn mx prior p h
    have hmem : p.ptype ∈ ptypeNames := by
      unfold paramInit at h
      split at h
      · exact absurd h (by simp)
      · rename_i v pt m1 m2 heq
        split at h
        · exact absurd h (by simp)
        · rename_i s hset
          have hp : p = ⟨name, v, m1, m2, prior, s⟩ := by
            have := h
            simp only [Except.ok.injEq] at this
            exact this.symm
          rw [hp]
          exact ptypeSetter_ok_mem hset
    simpa [ptypeNames] using hmem
  · intro q v hv
    cases v with
    | str s =>
        have hs := hv s rfl
        exact ⟨("ptype must be free fixed independent or shared"),
          by simp [setPtype, ptypeSetter, isBoolLike, hs]⟩
    | bool b =>
        exact ⟨("Boolean ptype values are deprecated"),
          by simp [setPtype, ptypeSetter, isBoolLike]⟩
    | int n =>
        by_cases h0 : (decide (n = 0) || decide (n = 1)) = true
        · exact ⟨("Boolean ptype values are deprecated"),
            by simp [setPtype, ptypeSetter, isBoolLike, h0]⟩
        · exact ⟨("ptype must be free fixed independent or shared"),
            by simp [setPtype, ptypeSetter, isBoolLike, h0]⟩
    | rat q2 =>
        by_cases h0 : (decide (q2 = 0) || decide (q2 = 1)) = true
        · exact ⟨("Boolean ptype values are deprecated"),
            by simp [setPtype, ptypeSetter, isBoolLike, h0]⟩
        · exact ⟨("ptype must be free fixed independent or shared"),
            by simp [setPtype, ptypeSetter, isBoolLike, h0]⟩
    | none =>
        exact ⟨("ptype must be free fixed independent or shared"),
          by simp [setPtype, ptypeSetter, isBoolLike]⟩
    | list l =>
        exact ⟨("ptype must be free fixed independent or shared"),
          by simp [setPtype, ptypeSetter, isBoolLike]⟩
  · intro q s hs
    simp [setPtype, ptypeSetter, isBoolLike, hs]

theorem ptype_validation_witness :
    (samplePar.ptype = "free" ∨ samplePar.ptype = "fixed" ∨
     samplePar.ptype = "independent" ∨ samplePar.ptype = "shared") ∧
    (∃ m, setPtype samplePar (PVal.bool true) = Except.error (PyErr.valueError m)) ∧
    setPtype samplePar (PVal.str ("fixed")) =
      Except.ok { samplePar with ptype := ("fixed") } :=
  ⟨ptype_validation.1 ("t") (PVal.int 3) (PVal.str ("free")) PVal.none PVal.none
      PVal.none samplePar rfl,
   ptype_validation.2.1 samplePar (PVal.bool true) (fun s h => by cases h),
   ptype_validation.2.2 samplePar ("fixed") (by decide)⟩

/-- C6: soundness of the anchor filter of `f277_mask`.  Every anchor it
returns has column strictly below 420 and strictly positive column and
row; every candidate whose column is `≥ 420`, or whose column or row is 0
(the only non-positive value an index can take), is excluded. -/
theorem f277_anchor_filter_sound (mask : BImg) :
    (∀ a ∈ f277Anchors mask, a.1 < 420 ∧ 0 < a.1 ∧ 0 < a.2) ∧
    (∀ a ∈ midCandidates mask, (420 ≤ a.1 ∨ a.1 = 0 ∨ a.2 = 0) →
      a ∉ f277Anchors mask) := by
  constructor
  · intro a ha
    have hb := (List.mem_filter.mp ha).2
    simp only [Bool.and_eq_true, decide_eq_true_eq] at hb
    exact ⟨hb.1.1, hb.2, hb.1.2⟩
  · intro a _ hbad hmem
    have hb := (List.mem_filter.mp hmem).2
    simp only [Bool.and_eq_true, decide_eq_true_eq] at hb
    rcases hbad with h | h | h
    · omega
    · omega
    · omega

theorem f277_anchor_filter_sound_witness :
    (((1 : ℕ), (2 : ℕ)).1 < 420 ∧ 0 < ((1 : ℕ), (2 : ℕ)).1 ∧
      0 < ((1 : ℕ), (2 : ℕ)).2) ∧
    ((0 : ℕ), (2 : ℕ)) ∉ f277Anchors maskW :=
  ⟨(f277_anchor_filter_sound maskW).1 (1, 2) (by decide),
   (f277_anchor_filter_sound maskW).2 (0, 2) (by decide) (by decide)⟩

/-- C9: the diagnostics level `isplots` has no effect on the computed
trace table of either strategy — only the rendered diagnostics differ. -/
theorem isplots_no_effect_on_tables :
    (∀ (solver : List (ℕ × ℤ) → ℕ → ℚ) (g f : Img) (ip ip2 : ℕ) (sv : Bool),
        (methodOneCore solver g f ip sv).1 = (methodOneCore solver g f ip2 sv).1) ∧
    (∀ (solver2 : List (ℕ × ℚ) → ℕ → ℚ) (sci f277 : Img) (ip ip2 : ℕ) (sv : Bool),
        (methodTwoCore solver2 sci f277 ip sv).1 =
        (methodTwoCore solver2 sci f277 ip2 sv).1) := by
  constructor
  · intro solver g f ip ip2 sv
    unfold methodOneCore
    cases methodOneTableOpt solver g f <;> rfl
  · intro solver2 sci f277 ip ip2 sv
    unfold methodTwoCore
    cases methodTwoTableOpt solver2 sci f277 <;> rfl

/-- C8: both strategies emit exactly one table row per column of the
science frame whenever they return a table at all (and the smoothed image
method one works on has exactly the science frame's column count). -/
theorem trace_table_length_eq_cols :
    (∀ (solver : List (ℕ × ℤ) → ℕ → ℚ) (g f : Img) (ip : ℕ) (sv : Bool)
        (t : List (ℕ × ℚ × ℚ)),
        (methodOneCore solver g f ip sv).1 = Option.some t → t.length = g.cols) ∧
    (∀ (radius : ℕ) (gk ck : Kern) (low high : ℚ) (img : Img),
        (simplify_niriss_img radius gk ck low high img).cols = img.cols) ∧
    (∀ (solver2 : List (ℕ × ℚ) → ℕ → ℚ) (sci f277 : Img) (ip : ℕ) (sv : Bool)
        (t : List (ℕ × ℚ × ℚ)),
        (methodTwoCore solver2 sci f277 ip sv).1 = Option.some t →
        t.length = sci.cols) := by
  refine ⟨?_, ?_, ?_⟩
  · intro solver g f ip sv t h
    unfold methodOneCore at h
    rcases hopt : methodOneTableOpt solver g f with _ | t2
    · rw [hopt] at h
      exact absurd h (by simp)
    · rw [hopt] at h
      have ht : t = t2 := by simpa using h.symm
      subst ht
      unfold methodOneTableOpt at hopt
      split at hopt
      · split at hopt
        · simp only [Option.some.injEq] at hopt
          rw [← hopt, List.length_map, List.length_range]
        · exact absurd hopt (by simp)
      · exact absurd hopt (by simp)
  · intro radius gk ck low high img
    rfl
  · intro solver2 sci f277 ip sv t h
    unfold methodTwoCore at h
    rcases hopt : methodTwoTableOpt solver2 sci f277 with _ | t2
    · rw [hopt] at h
      exact absurd h (by simp)
    · rw [hopt] at h
      have ht : t = t2 := by simpa using h.symm
      subst ht
      unfold methodTwoTableOpt at hopt
      split at hopt
      · simp only [Option.some.injEq] at hopt
        rw [← hopt, List.length_map, List.length_range]
      · exact absurd hopt (by simp)

theorem trace_table_length_eq_cols_witness :
    (methodOneCore solverZ gT fT 0 false).1 = Option.some m1T ∧ m1T.length = 3 ∧
    (methodTwoCore solverZQ sciT f277T 0 false).1 = Option.some m2T ∧
    m2T.length = 2 :=
  ⟨rfl, trace_table_length_eq_cols.1 solverZ gT fT 0 false m1T rfl, rfl,
   trace_table_length_eq_cols.2.2 solverZQ sciT f277T 0 false m2T rfl⟩

theorem gc1col_congr (g g2 : Img) (hr : g.rows = g2.rows)
    (ha : ∀ r2 c2, r2 ≤ 78 → (100 < g.val r2 c2 ↔ 100 < g2.val r2 c2)) (i : ℕ) :
    gc1col g i = gc1col g2 i := by
  unfold gc1col
  have hf : (List.range g.rows).filter
        (fun r2 => decide (100 < g.val r2 i) && decide (r2 ≤ 78)) =
      (List.range g2.rows).filter
        (fun r2 => decide (100 < g2.val r2 i) && decide (r2 ≤ 78)) := by
    rw [← hr]
    apply List.filter_congr
    intro r2 _
    by_cases h78 : r2 ≤ 78
    · rw [decide_eq_decide.mpr (ha r2 i h78)]
    · simp [h78]
  rw [hf]

theorem gc2col_congr (g g2 : Img) (hr : g.rows = g2.rows)
    (ha : ∀ r2 c2, 80 ≤ r2 → (100 < g.val r2 c2 ↔ 100 < g2.val r2 c2)) (i : ℕ) :
    gc2col g i = gc2col g2 i := by
  unfold gc2col
  have hf : (List.range g.rows).filter
        (fun r2 => decide (100 < g.val r2 i) && decide (80 ≤ r2)) =
      (List.range g2.rows).filter
        (fun r2 => decide (100 < g2.val r2 i) && decide (80 ≤ r2)) := by
    rw [← hr]
    apply List.filter_congr
    intro r2 _
    by_cases h80 : 80 ≤ r2
    · rw [decide_eq_decide.mpr (ha r2 i h80)]
    · simp [h80]
  rw [hf]

theorem gcenters1_congr (g g2 : Img) (hr : g.rows = g2.rows) (hc : g.cols = g2.cols)
    (ha : ∀ r2 c2, r2 ≤ 78 → (100 < g.val r2 c2 ↔ 100 < g2.val r2 c2)) :
    gcenters1 g = gcenters1 g2 := by
  unfold gcenters1
  rw [← hc]
  congr 1
  exact List.map_congr_left (fun i _ => gc1col_congr g g2 hr ha i)

theorem gcenters2_congr (g g2 : Img) (hr : g.rows = g2.rows) (hc : g.cols = g2.cols)
    (ha : ∀ r2 c2, 80 ≤ r2 → (100 < g.val r2 c2 ↔ 100 < g2.val r2 c2)) :
    gcenters2 g = gcenters2 g2 := by
  unfold gcenters2
  rw [← hc]
  congr 1
  exact List.map_congr_left (fun i _ => gc2col_congr g g2 hr ha i)

/-- C7: the band split and the column windows of strategy A.  The order-1
centers depend only on which pixels in rows `≤ 78` exceed the 100
threshold; the order-2 centers only on rows `≥ 80`; consequently row 79
influences neither.  The science points offered to the order-1 fit all
have column `> 800`, those offered to the order-2 fit column strictly
between 800 and 1800. -/
theorem method_one_banding_and_ranges :
    (∀ g g2 : Img, g.rows = g2.rows → g.cols = g2.cols →
        (∀ r2 c2, r2 ≤ 78 → (100 < g.val r2 c2 ↔ 100 < g2.val r2 c2)) →
        gcenters1 g = gcenters1 g2) ∧
    (∀ g g2 : Img, g.rows = g2.rows → g.cols = g2.cols →
        (∀ r2 c2, 80 ≤ r2 → (100 < g.val r2 c2 ↔ 100 < g2.val r2 c2)) →
        gcenters2 g = gcenters2 g2) ∧
    (∀ g g2 : Img, g.rows = g2.rows → g.cols = g2.cols →
        (∀ r2 c2, r2 ≠ 79 → g.val r2 c2 = g2.val r2 c2) →
        gcenters1 g = gcenters1 g2 ∧ gcenters2 g = gcenters2 g2) ∧
    (∀ g : Img, ∀ q ∈ sci1pts g, 800 < q.1) ∧
    (∀ g : Img, ∀ q ∈ sci2pts g, 800 < q.1 ∧ q.1 < 1800) := by
  refine ⟨gcenters1_congr, gcenters2_congr, ?_, ?_, ?_⟩
  · intro g g2 hr hc ha
    constructor
    · exact gcenters1_congr g g2 hr hc
        (fun r2 c2 h78 => by rw [ha r2 c2 (by omega)])
    · exact gcenters2_congr g g2 hr hc
        (fun r2 c2 h80 => by rw [ha r2 c2 (by omega)])
  · intro g q hq
    obtain ⟨i, hi, rfl⟩ := List.mem_map.mp hq
    have := (List.mem_filter.mp hi).2
    simpa using this
  · intro g q hq
    obtain ⟨i, hi, rfl⟩ := List.mem_map.mp hq
    have := (List.mem_filter.mp hi).2
    simp only [Bool.and_eq_true, decide_eq_true_eq] at this
    exact this

theorem method_one_banding_and_ranges_witness :
    gcenters1 gW500 = gcenters1 gW200 ∧
    800 < ((801 : ℕ), (gcenters1 gWide).getD 801 0).1 :=
  ⟨method_one_banding_and_ranges.1 gW500 gW200 rfl rfl
      (fun r2 c2 _ => by norm_num [gW500, gW200]),
   method_one_banding_and_ranges.2.2.2.1 gWide
     (801, (gcenters1 gWide).getD 801 0)
     (List.mem_map.mpr ⟨801,
       List.mem_filter.mpr ⟨List.mem_range.mpr (by decide), by decide⟩, rfl⟩)⟩

theorem le_findAhead (x : ℕ → ℚ) (v : ℚ) (iMax : ℕ) :
    ∀ (fl i : ℕ), i ≤ findAhead x v iMax fl i := by
  intro fl
  induction fl with
  | zero => intro i; exact Nat.le_refl i
  | succ fl ih =>
      intro i
      simp only [findAhead]
      split
      · exact Nat.le_trans (Nat.le_succ i) (ih (i + 1))
      · exact Nat.le_refl i

theorem mem_lmAux_le (x : ℕ → ℚ) (iMax : ℕ) :
    ∀ (fl i m : ℕ), m ∈ lmAux x iMax fl i → i ≤ m := by
  intro fl
  induction fl with
  | zero => intro i m hm; simp [lmAux] at hm
  | succ fl ih =>
      intro i m hm
      simp only [lmAux] at hm
      split at hm
      · split at hm
        · split at hm
          · have hia : i + 1 ≤ findAhead x (x i) iMax (iMax - (i + 1)) (i + 1) :=
              le_findAhead x (x i) iMax (iMax - (i + 1)) (i + 1)
            rcases List.mem_cons.mp hm with h | h
            · subst h
              have h2 : i * 2 ≤ i + (findAhead x (x i) iMax (iMax - (i + 1)) (i + 1) - 1) := by
                omega
              omega
            · have := ih _ _ h
              omega
          · exact Nat.le_trans (Nat.le_succ i) (ih _ _ hm)
        · exact Nat.le_trans (Nat.le_succ i) (ih _ _ hm)
      · simp at hm

theorem one_le_of_mem_localMaxima {x : ℕ → ℚ} {n m : ℕ}
    (h : m ∈ localMaxima x n) : 1 ≤ m :=
  mem_lmAux_le x (n - 1) n 1 m h

theorem getD_mem_nat : ∀ (l : List ℕ) (k d : ℕ), k < l.length → l.getD k d ∈ l := by
  intro l
  induction l with
  | nil => intro k d h; simp at h
  | cons a t ih =>
      intro k d h
      cases k with
      | zero => exact List.mem_cons_self a t
      | succ k =>
          exact List.mem_cons.mpr (Or.inr (ih k d (by simpa using h)))

theorem mem_selectByDist {x : ℕ → ℚ} {peaks : List ℕ} {dist y : ℕ}
    (h : y ∈ selectByDist x peaks dist) : y ∈ peaks := by
  unfold selectByDist at h
  obtain ⟨k, hk, heq⟩ := List.mem_filterMap.mp h
  split at heq
  · have : peaks.getD k 0 = y := by simpa using heq
    rw [← this]
    exact getD_mem_nat peaks k 0 (List.mem_range.mp hk)
  · exact absurd heq (by simp)

theorem one_le_of_mem_findPeaks {x : ℕ → ℚ} {n p : ℕ} {height : ℚ} {dist : ℕ}
    (hp : p ∈ findPeaksM x n height dist) : 1 ≤ p := by
  unfold findPeaksM at hp
  have hpk := mem_selectByDist hp
  exact one_le_of_mem_localMaxima (List.mem_filter.mp hpk).1

theorem f277Row_pos {sci f277 : Img} {i : ℕ}
    (h : (f277Row sci f277 i).1 ≠ 0) :
    0 < (f277Row sci f277 i).1 ∧ 0 < (f277Row sci f277 i).2 := by
  by_cases hic : i < sci.cols
  · have heq : f277Row sci f277 i =
        match findPeaksM (fun r2 => f277.val r2 i) f277.rows 100000 10 with
        | [a, b] => ((a : ℚ), (b : ℚ))
        | _ => (0, 0) := by
      unfold f277Row
      rw [if_pos hic]
    rw [heq] at h ⊢
    rcases hfp : findPeaksM (fun r2 => f277.val r2 i) f277.rows 100000 10 with
      _ | ⟨a, _ | ⟨b, _ | ⟨c, t⟩⟩⟩
    · rw [hfp] at h
      simp at h
    · rw [hfp] at h
      simp at h
    · have ha : (1 : ℕ) ≤ a := one_le_of_mem_findPeaks
        (x := fun r2 => f277.val r2 i) (by rw [hfp]; exact List.mem_cons_self a [b])
      have hb : (1 : ℕ) ≤ b := one_le_of_mem_findPeaks
        (x := fun r2 => f277.val r2 i) (by rw [hfp]; simp)
      constructor
      · show (0 : ℚ) < ((a : ℕ) : ℚ)
        exact_mod_cast Nat.lt_of_lt_of_le Nat.zero_lt_one ha
      · show (0 : ℚ) < ((b : ℕ) : ℚ)
        exact_mod_cast Nat.lt_of_lt_of_le Nat.zero_lt_one hb
    · rw [hfp] at h
      simp at h
  · exfalso
    apply h
    unfold f277Row
    rw [if_neg hic]

/-- C4: the sentinel 0 never reaches a polynomial fit.  In strategy A,
every point set `clean_and_fit` hands to `np.polyfit` has all center
values nonzero (indeed positive); in strategy B, every point set
assembled for any of the four fitted boundaries has all row values
nonzero (indeed positive). -/
theorem fit_inputs_never_sentinel :
    (∀ (p1 p2 : List (ℕ × ℤ)) (pts : List (ℕ × ℤ)),
        cleanAndFit p1 p2 = Option.some pts → ∀ q ∈ pts, q.2 ≠ 0) ∧
    (∀ (sci f277 : Img) (ind : ℕ), ∀ q ∈ methodTwoPoints sci f277 ind,
        q.2 ≠ 0) := by
  constructor
  · intro p1 p2 pts h q hq
    have hone : cleanAndFit p1 p2 =
        if (p1.filter (fun a => decide (0 < a.2)) ++
            p2.filter (fun a => decide (0 < a.2))).isEmpty
        then Option.none
        else Option.some (p1.filter (fun a => decide (0 < a.2)) ++
                          p2.filter (fun a => decide (0 < a.2))) := rfl
    rw [hone] at h
    split at h
    · exact absurd h (by simp)
    · have hpts : pts = p1.filter (fun a => decide (0 < a.2)) ++
          p2.filter (fun a => decide (0 < a.2)) := by simpa using h.symm
      rw [hpts] at hq
      rcases List.mem_append.mp hq with hmem | hmem
      · have := (List.mem_filter.mp hmem).2
        simp only [decide_eq_true_eq] at this
        omega
      · have := (List.mem_filter.mp hmem).2
        simp only [decide_eq_true_eq] at this
        omega
  · intro sci f277 ind q hq
    unfold methodTwoPoints at hq
    split at hq
    · simp at hq
    · rcases List.mem_append.mp hq with hmem | hmem
      · obtain ⟨i, hi, rfl⟩ := List.mem_map.mp hmem
        have hxf : i ∈ xfList sci f277 := by
          by_cases hcut : ind < 2
          · rw [if_pos hcut] at hi
            exact List.dropLast_subset _ hi
          · rw [if_neg hcut] at hi
            exact List.take_subset _ _ hi
        have hne : (f277Row sci f277 i).1 ≠ 0 := by
          have := (List.mem_filter.mp hxf).2
          simpa using this
        have hpos := f277Row_pos hne
        by_cases hind : ind = 0 ∨ ind = 2
        · simp only [if_pos hind]
          exact ne_of_gt hpos.1
        · simp only [if_neg hind]
          exact ne_of_gt hpos.2
      · have hq2 := (List.mem_filter.mp hmem).1
        obtain ⟨i, hi, rfl⟩ := List.mem_map.mp hq2
        have := (List.mem_filter.mp hi).2
        simp only [decide_eq_true_eq] at this
        exact ne_of_gt this

theorem fit_inputs_never_sentinel_witness :
    (∀ q ∈ [((5 : ℕ), (7 : ℤ))], q.2 ≠ 0) ∧
    (∀ q ∈ methodTwoPoints sciT f277T 0, q.2 ≠ 0) :=
  ⟨fit_inputs_never_sentinel.1 [((5 : ℕ), (7 : ℤ))] [] [(5, 7)] (by decide),
   fit_inputs_never_sentinel.2 sciT f277T 0⟩

theorem foldl_add_all_zero {α : Type} (f : α → ℚ) :
    ∀ (l : List α) (s : ℚ), (∀ o ∈ l, f o = 0) → l.foldl (fun t o => t + f o) s = s := by
  intro l
  induction l with
  | nil => intro s _; rfl
  | cons a t ih =>
      intro s h
      show t.foldl (fun t o => t + f o) (s + f a) = s
      rw [h a (List.mem_cons_self a t), add_zero]
      exact ih s (fun o ho => h o (List.mem_cons.mpr (Or.inr ho)))

theorem foldl_max_zero :
    ∀ (l : List ℚ) (a : ℚ), (∀ y ∈ l, y = 0) → a = 0 → l.foldl max a = 0 := by
  intro l
  induction l with
  | nil => intro a _ ha; exact ha
  | cons b t ih =>
      intro a h ha
      show t.foldl max (max a b) = 0
      have hb : b = 0 := h b (List.mem_cons_self b t)
      exact ih (max a b) (fun y hy => h y (List.mem_cons.mpr (Or.inr hy)))
        (by rw [ha, hb, max_self])

theorem imgMax_zero (img : Img) (h : ∀ i j, img.val i j = 0) : imgMax img = 0 := by
  have helems : ∀ q ∈ imgElems img, q = 0 := by
    intro q hq
    unfold imgElems at hq
    obtain ⟨i, _, hq2⟩ := List.mem_flatMap.mp hq
    obtain ⟨j, _, rfl⟩ := List.mem_map.mp hq2
    exact h i j
  unfold imgMax
  rcases hE : imgElems img with _ | ⟨a, t⟩
  · rfl
  · exact foldl_max_zero t a
      (fun y hy => helems y (by rw [hE]; exact List.mem_cons.mpr (Or.inr hy)))
      (helems a (by rw [hE]; exact List.mem_cons_self a t))

theorem valC_zero (img : Img) (h : ∀ i j, img.val i j = 0) :
    ∀ (i j : ℤ), img.valC i j = 0 := by
  intro i j
  unfold Img.valC
  exact h _ _

theorem convolve_zero (k : Kern) (img : Img) (h : ∀ i j, img.val i j = 0) :
    ∀ i j, (convolve k img).val i j = 0 := by
  intro i j
  show (offsList k.r).foldl
      (fun s o => s + k.w o.1 o.2 * img.valC ((i : ℤ) + o.1) ((j : ℤ) + o.2)) 0 = 0
  exact foldl_add_all_zero
    (fun o => k.w o.1 o.2 * img.valC ((i : ℤ) + o.1) ((j : ℤ) + o.2))
    (offsList k.r) 0 (fun o _ => by
      show k.w o.1 o.2 * img.valC ((i : ℤ) + o.1) ((j : ℤ) + o.2) = 0
      rw [valC_zero img h, mul_zero])

theorem maskedData_zero (radius r c : ℕ) :
    ∀ i j, (maskedData radius (zeroImg r c)).val i j = 0 := by
  intro i j
  show (if coarseMask radius (zeroImg r c) i j then 0 else (zeroImg r c).val i j) = 0
  split
  · rfl
  · rfl

theorem smoothClip_zero (gk : Kern) (radius r c : ℕ) :
    ∀ i j, (smoothClip gk radius (zeroImg r c)).val i j = 0 := by
  intro i j
  have hc := convolve_zero gk (maskedData radius (zeroImg r c))
    (maskedData_zero radius r c) i j
  show (if 6 < (convolve gk (maskedData radius (zeroImg r c))).val i j then 200
        else (convolve gk (maskedData radius (zeroImg r c))).val i j) = 0
  rw [hc]
  norm_num

theorem sobelSq_zero (img : Img) (h : ∀ i j, img.val i j = 0) :
    ∀ i j, sobelSq img i j = 0 := by
  intro i j
  unfold sobelSq
  rw [convolve_zero sobelHk img h, convolve_zero sobelVk img h]
  norm_num

theorem sobelBin_zero (img : Img) (h : ∀ i j, img.val i j = 0) :
    ∀ i j, (sobelBin img).val i j = 0 := by
  intro i j
  show (if 0 < sobelSq img i j then 1 else 0) = 0
  rw [sobelSq_zero img h]
  norm_num

theorem edgesFlipped_zero (img : Img) (h : ∀ i j, img.val i j = 0) :
    ∀ i j, (edgesFlipped img).val i j = 0 := by
  intro i j
  show imgMax (sobelBin img) - (sobelBin img).val i j = 0
  rw [imgMax_zero (sobelBin img) (sobelBin_zero img h), sobelBin_zero img h, sub_zero]

theorem growIter_false (r c : ℕ) (weak : ℕ → ℕ → Bool)
    (hw : ∀ i j, weak i j = false) :
    ∀ (n : ℕ) (cur : ℕ → ℕ → Bool), (∀ i j, cur i j = false) →
      ∀ i j, growIter r c weak n cur i j = false := by
  intro n
  induction n with
  | zero => intro cur hc i j; exact hc i j
  | succ n ih =>
      intro cur hc i j
      show growIter r c weak n (growStep r c weak cur) i j = false
      apply ih
      intro i2 j2
      unfold growStep
      rw [hc, hw]
      rfl

theorem cannyModel_zerograd (ck : Kern) (low high : ℚ) (img : Img)
    (h : ∀ i j, img.val i j = 0) :
    ∀ i j, (cannyModel ck low high img).val i j = false := by
  have hm2 : ∀ i j, sobelSq (convolve ck img) i j = 0 :=
    sobelSq_zero (convolve ck img) (convolve_zero ck img h)
  have hweak : ∀ i j, decide (low ^ 2 < sobelSq (convolve ck img) i j) = false := by
    intro i j
    rw [hm2]
    exact decide_eq_false (not_lt.mpr (sq_nonneg low))
  intro i j
  show growIter img.rows img.cols
      (fun i j => decide (low ^ 2 < sobelSq (convolve ck img) i j))
      (img.rows * img.cols)
      (fun i j => decide (high ^ 2 < sobelSq (convolve ck img) i j) &&
                  decide (low ^ 2 < sobelSq (convolve ck img) i j)) i j = false
  apply growIter_false _ _ _ (fun i2 j2 => hweak i2 j2)
  intro i2 j2
  rw [hweak]
  exact Bool.and_false _

/-- C5: on an all-zero input frame, `image_filtering` completes and
returns an all-false edge mask: nothing survives the pipeline
(normalisation, coarse masking, smoothing, Sobel binarisation, polarity
flip, Canny), so callers see zero detected columns.  This holds for every
frame size, disk radius, smoothing kernel and Canny kernel/thresholds. -/
theorem image_filtering_zero_frame_all_false (radius : ℕ) (gk ck : Kern)
    (low high : ℚ) (r c i j : ℕ) :
    ((image_filtering radius gk ck low high (zeroImg r c)).1).val i j = false := by
  show (cannyModel ck low high (edgesFlipped (smoothClip gk radius (zeroImg r c)))).val
      i j = false
  exact cannyModel_zerograd ck low high _
    (edgesFlipped_zero _ (smoothClip_zero gk radius r c)) i j
